import Mathlib

/-!
Verification of the `shell-go` interactive shell (`src/cmd/myshell/main.go`)
against its natural-language specification.

The Go code is shallowly embedded: the quote-aware tokenizer
(`parseUserInput`), the longest-prefix helper and tab-completion branch of
the line editor (`getLongestPrefix`, `getAutoCompletions`, the tab case of
`readInput`), the redirection routing (`redirect`, the dispatch loop body of
`main`), and the `cd` builtin (`cdCmd`) are translated into pure Lean
functions.  Interactions with the operating system (the file system, the
process environment, external process execution) are parameterized: a
`World` carries the builtin table, the PATH-membership predicate and the
external-execution oracle; the file system seen by `cd` is a function from
paths to optional file kinds; terminal writes and file writes are reified
as a list of `Eff` effects in program order.
-/

namespace ShellGo

/-! ## Tokenizer (`parseUserInput`, main.go lines 287-350) -/

/-- The tokenizer state of `parseUserInput`: the three boolean flags
`inSingleQuote`, `inDoubleQuote`, `escaped`, the accumulator `current`
(as a list of characters) and the already-emitted tokens `args`. -/
structure PState where
  inSingle : Bool
  inDouble : Bool
  escaped : Bool
  current : List Char
  args : List String
deriving DecidableEq, Repr

def initState : PState := ⟨false, false, false, [], []⟩

/-- One character of `parseUserInput`'s `switch` statement. -/
def step (st : PState) (c : Char) : PState :=
  if c = '\\' then
    if st.escaped || st.inSingle then
      { st with current := st.current ++ [c], escaped := false }
    else
      { st with escaped := true }
  else if c = '"' then
    if st.escaped || st.inSingle then
      { st with current := st.current ++ [c], escaped := false }
    else
      { st with inDouble := !st.inDouble, escaped := false }
  else if c = '\'' then
    if st.escaped || st.inDouble then
      { st with
        current := st.current ++ (if st.inDouble && st.escaped then ['\\'] else []) ++ [c],
        escaped := false }
    else
      { st with inSingle := !st.inSingle, escaped := false }
  else if c = ' ' then
    if st.escaped || st.inSingle || st.inDouble then
      { st with
        current := st.current ++ (if st.inDouble && st.escaped then ['\\'] else []) ++ [c],
        escaped := false }
    else if st.current.isEmpty then
      { st with escaped := false }
    else
      { st with args := st.args ++ [String.mk st.current], current := [], escaped := false }
  else
    { st with
      current := st.current ++ (if st.escaped && st.inDouble then ['\\'] else []) ++ [c],
      escaped := false }

def runChars (st : PState) (cs : List Char) : PState := cs.foldl step st

/-- The final flush after the character loop of `parseUserInput`:
`if current.Len() > 0 \x7b args = append(args, current.String()) \x7d`. -/
def finish (st : PState) : List String :=
  if st.current.isEmpty then st.args else st.args ++ [String.mk st.current]

/-- `parseUserInput` (main.go lines 287-350): tokenize one input line. -/
def parseUserInput (s : String) : List String := finish (runChars initState s.data)

/-- The tokenizer state reached after consuming the whole line. -/
def stateOf (s : String) : PState := runChars initState s.data

/-! ## Whitespace splitting (`strings.Fields`), used by the spec's
"whitespace-split" and by the tab handler of `readInput`. -/

/-- The ASCII whitespace set of Go `unicode.IsSpace` (the input line is
read byte-wise by the line editor, so only ASCII can occur). -/
def isSpace (c : Char) : Bool :=
  c == ' ' || c == '\t' || c == '\n' || c == '\x0b' || c == '\x0c' || c == '\r'

def fieldsAux : List Char → List Char → List String
  | [], acc => if acc.isEmpty then [] else [String.mk acc]
  | c :: cs, acc =>
    if isSpace c then
      if acc.isEmpty then fieldsAux cs [] else String.mk acc :: fieldsAux cs []
    else fieldsAux cs (acc ++ [c])

/-- `strings.Fields`: split around runs of whitespace, no empty fields. -/
def fields (s : String) : List String := fieldsAux s.data []

/-- A control character (C0 or DEL); the spec's "escape characters". -/
def ctrl (c : Char) : Bool := c.toNat < 32 || c.toNat == 127

/-! ## Completion Provider (`getAutoCompletions`, `getLongestPrefix`,
main.go lines 186-232) and the tab branch of `readInput` (lines 129-155). -/

/-- Go `strings.HasPrefix s pre`: `s` starts with `pre`. -/
def goHasPrefix (s pre : String) : Bool := pre.data.isPrefixOf s.data

/-- `getLongestPrefix` (main.go lines 186-199): returns `ms[0]` if every
other candidate has it as a prefix, and `""` otherwise. -/
def getLongestPrefix (ms : List String) : String :=
  match ms with
  | [] => ""
  | m :: rest => if rest.all (fun x => goHasPrefix x m) then m else ""

/-- Character-wise common prefix of two character lists. -/
def cp2 : List Char → List Char → List Char
  | a :: as, b :: bs => if a = b then a :: cp2 as bs else []
  | _, _ => []

/-- Modelled from the spec: "the longest string that is a prefix of every
candidate in `C`" (§4.4); the reference the source's `getLongestPrefix`
is compared against. -/
def longestCommonPrefixSpec (l : List String) : String :=
  match l with
  | [] => ""
  | m :: rest => String.mk (rest.foldl (fun acc x => cp2 acc x.data) m.data)

/-- Lexicographic order on character lists (byte order of Go string `<=`). -/
def leChars : List Char → List Char → Bool
  | [], _ => true
  | _ :: _, [] => false
  | a :: as, b :: bs => if a = b then leChars as bs else decide (a.toNat < b.toNat)

def strLe (a b : String) : Bool := leChars a.data b.data

/-- Insertion sort on strings, modelling `slices.Sort`. -/
def insertSorted (x : String) : List String → List String
  | [] => [x]
  | y :: ys => if strLe x y then x :: y :: ys else y :: insertSorted x ys

def sortStrings (l : List String) : List String := l.foldr insertSorted []

/-- One entry of a directory listing, as `os.ReadDir` presents it. -/
structure DirEntry where
  name : String
  isDir : Bool
deriving DecidableEq

/-- The environment `getAutoCompletions` reads: the keys of the builtin
registry and the listings of the readable `PATH` directories. -/
structure CompletionEnv where
  builtins : List String
  dirs : List (List DirEntry)

/-- The inner loop over one directory (main.go lines 214-228): append each
non-directory entry whose name starts with the prefix, skipping names
already collected. -/
def addDirMatches (pre : String) (ms : List String) (files : List DirEntry) :
    List String :=
  files.foldl
    (fun acc f =>
      if f.isDir then acc
      else if goHasPrefix f.name pre && !(acc.contains f.name) then acc ++ [f.name]
      else acc)
    ms

/-- `getAutoCompletions` (main.go lines 201-232): builtin names and `PATH`
executables starting with the prefix, deduplicated and sorted; an empty
prefix yields no candidates. -/
def getAutoCompletions (env : CompletionEnv) (pre : String) : List String :=
  if pre.length = 0 then []
  else
    let ms := env.builtins.filter (fun k => goHasPrefix k pre)
    sortStrings (env.dirs.foldl (addDirMatches pre) ms)

/-- Go `strings.Join l sep`. -/
def joinSep (sep : String) : List String → String
  | [] => ""
  | x :: xs => xs.foldl (fun acc y => acc ++ sep ++ y) x

/-- The tab-key case of `readInput` (main.go lines 129-155), as a function of
the buffer contents and the consecutive-tab counter.  The result is the new
buffer, the new tab counter, and the terminal writes (bell / candidate
list); `none` models the Go panic: when the buffer holds no field,
`str[len(str)-1]` indexes an empty slice.  Echo/redraw writes are omitted. -/
def tabKey (env : CompletionEnv) (buffer : String) (tabCount : Nat) :
    Option (String × Nat × List String) :=
  match (fields buffer).getLast? with
  | none => none
  | some sub =>
    let ms := getAutoCompletions env sub
    let tc := tabCount + 1
    if ms.length = 0 then
      some (buffer, tc, ["\x07"])
    else if ms.length = 1 then
      some (String.mk (buffer.data.take (buffer.data.length - sub.data.length)) ++
              (ms.headD "" ++ " "), 0, [])
    else
      let longestPrefix := getLongestPrefix ms
      if longestPrefix ≠ "" then some (longestPrefix, tc, [])
      else if tc < 2 then some (buffer, tc, ["\x07"])
      else some (buffer, 0, ["\r\n" ++ joinSep "  " ms ++ "\n\r"])

/-! ## Dispatcher and redirection (`main`, `redirect`, `isRedirectOperator`,
`executeProgram`, main.go lines 29-81, 234-285, 352-369). -/

/-- An observable action of one loop iteration: a terminal write or a file
write, in program order.  File-write failures are not modelled (the Go code
only prints them and continues). -/
inductive Eff where
  | writeStdout : String → Eff
  | writeStderr : String → Eff
  | fileTruncate : String → String → Eff
  | fileAppend : String → String → Eff
deriving DecidableEq, Repr

/-- `isRedirectOperator` (main.go lines 282-285). -/
def isRedirectOperator (op : String) : Bool :=
  (["1>", ">", "2>", ">>", "1>>", "2>>"] : List String).contains op

/-- `redirect` (main.go lines 234-280): route `output` and `errorOutput`
according to the directive tokens. -/
def redirect (output errorOutput : String) (redirectedArgs : List String) : List Eff :=
  match redirectedArgs with
  | op :: filePath :: _ =>
    if op = "2>" then
      (if output = "" then [] else [Eff.writeStdout output]) ++
        [Eff.fileTruncate filePath errorOutput]
    else if op = "2>>" then
      (if output = "" then [] else [Eff.writeStdout output]) ++
        [Eff.fileAppend filePath errorOutput]
    else if op = ">>" ∨ op = "1>>" then [Eff.fileAppend filePath output]
    else [Eff.fileTruncate filePath output]
  | _ => [Eff.writeStdout "please provide valid arguments for redirection"]

/-- The operating-system-facing collaborators of the dispatch loop: the
builtin registry (each builtin as a pure function to `(output, error?)`),
the `PATH`-membership predicate of `isInPath`, and the external-execution
oracle giving `(stdout, error text)` for commands found on the path. -/
structure World where
  builtins : String → Option (List String → String × Option String)
  inPath : String → Bool
  exec : String → List String → String × String

/-- `executeProgram` (main.go lines 352-369): run a found external command,
or synthesize the `command not found` text as output with an empty error. -/
def executeProgram (w : World) (command : String) (args : List String) :
    String × String :=
  if w.inPath command then w.exec command args
  else (command ++ ": command not found\n", "")

/-- One iteration of the dispatch loop of `main` (main.go lines 41-79) after
tokenization, for head token `command` and remaining tokens `args0`:
split off the redirection directive, run the builtin or the external
program, and route output and error. -/
def runIteration (w : World) (command : String) (args0 : List String) : List Eff :=
  let idx := args0.findIdx? (fun n => isRedirectOperator n)
  let args := match idx with | some i => args0.take i | none => args0
  let redirectArgs := match idx with | some i => args0.drop i | none => []
  match w.builtins command with
  | some cmdFn =>
    let res := cmdFn args
    let errorMsg := match res.2 with | some e => e | none => ""
    let errEffs := match res.2 with
      | some e => [Eff.writeStderr (e ++ "\n")]
      | none => []
    errEffs ++ (match idx with
      | some _ => redirect res.1 errorMsg redirectArgs
      | none => [Eff.writeStdout res.1])
  | none =>
    let res := executeProgram w command args
    let errEffs :=
      if res.2 = "" then []
      else match idx with
        | some _ =>
          if redirectArgs.headD "" ≠ "2>" ∧ redirectArgs.headD "" ≠ "2>>" then
            [Eff.writeStderr res.2]
          else []
        | none => []
    errEffs ++ (match idx with
      | some _ => redirect res.1 res.2 redirectArgs
      | none => [Eff.writeStdout res.1])

/-! ## The `cd` builtin (`cdCmd`, main.go lines 384-404) and the Go `path`
package helpers it calls. -/

/-- What `os.Stat` can report about a path: a regular file or a directory
(`none` at the call sites below models "does not exist"). -/
inductive FType where
  | file : FType
  | dir : FType
deriving DecidableEq, Repr

/-- Go `path.IsAbs`: the path starts with a slash. -/
def isAbs (s : String) : Bool :=
  match s.data with
  | '/' :: _ => true
  | _ => false

def splitSlashAux : List Char → List Char → List String
  | [], acc => [String.mk acc]
  | c :: cs, acc =>
    if c = '/' then String.mk acc :: splitSlashAux cs []
    else splitSlashAux cs (acc ++ [c])

/-- Split a path at every slash (empty segments kept, as
`strings.Split(p, "/")` does). -/
def splitSlash (s : String) : List String := splitSlashAux s.data []

/-- The element loop of Go `path.Clean`: drop empty and `.` segments,
resolve `..` against the collected prefix (dropped at the root of a rooted
path, kept at the head of a relative one). -/
def cleanAux (rooted : Bool) (acc : List String) : List String → List String
  | [] => acc.reverse
  | p :: ps =>
    if p = "" ∨ p = "." then cleanAux rooted acc ps
    else if p = ".." then
      match acc with
      | q :: qs => if q = ".." then cleanAux rooted (p :: q :: qs) ps
                   else cleanAux rooted qs ps
      | [] => if rooted then cleanAux rooted [] ps else cleanAux rooted [p] ps
    else cleanAux rooted (p :: acc) ps

/-- Go `path.Clean`: lexical simplification of a slash-separated path. -/
def pathClean (p : String) : String :=
  if p = "" then "."
  else
    let rooted := isAbs p
    let joined := joinSep "/" (cleanAux rooted [] (splitSlash p))
    if rooted then "/" ++ joined
    else if joined = "" then "." else joined

/-- Go `path.Join` restricted to two elements, as `cdCmd` uses it:
skip leading empty elements, join with a slash, clean. -/
def pathJoin (a b : String) : String :=
  if a ≠ "" then pathClean (a ++ "/" ++ b)
  else if b ≠ "" then pathClean b
  else ""

/-- Go `strings.Contains(s, "~")` for the single-character pattern. -/
def containsTilde (s : String) : Bool := s.data.contains '~'

/-- Go `strings.ReplaceAll(s, "~", home)` for the single-character pattern. -/
def replaceTilde (s home : String) : String :=
  String.mk (s.data.foldr (fun c acc => if c = '~' then home.data ++ acc else c :: acc) [])

/-- The process environment `cd` reads and writes. -/
structure ShellEnv where
  pwd : String
  home : String
deriving DecidableEq, Repr

/-- The path-resolution prefix of `cdCmd` (main.go lines 389-396): an
absolute argument is used as is; otherwise `~` occurrences are replaced by
`HOME`, or the argument is joined to `PWD`. -/
def cdResolve (pwd home : String) (dirPath : String) : String :=
  if isAbs dirPath then dirPath
  else if containsTilde dirPath then replaceTilde dirPath home
  else pathJoin pwd dirPath

/-- `cdCmd` (main.go lines 384-404) over a file system `fs` (what `os.Stat`
finds at each path): returns the updated environment, the output text and
the optional error text. -/
def cdCmd (fs : String → Option FType) (env : ShellEnv) (args : List String) :
    ShellEnv × String × Option String :=
  match args with
  | [] => (env, "", some "please provide an argument for the cd command")
  | p :: _ =>
    let d := cdResolve env.pwd env.home p
    if (fs d).isSome then ({ env with pwd := d }, "", none)
    else (env, "", some ("cd: " ++ d ++ ": No such file or directory"))

/-! ## Concrete instances used to evaluate the model. -/

/-- The builtin names registered by `initCommands` (main.go lines 83-89). -/
def defaultBuiltins : List String := ["exit", "echo", "type", "pwd", "cd"]

/-- A world with one external program `prog` whose execution yields output
`out` and error text `boom\n`. -/
def wExternal : World :=
  { builtins := fun _ => none
    inPath := fun c => c == "prog"
    exec := fun _ _ => ("out", "boom\n") }

/-- A world with one builtin `b` that returns no output and the error `err`. -/
def wBuiltinErr : World :=
  { builtins := fun c => if c == "b" then some (fun _ => ("", some "err")) else none
    inPath := fun _ => false
    exec := fun _ _ => ("", "") }

/-- A world in which nothing is a builtin and nothing is on the path. -/
def wEmpty : World :=
  { builtins := fun _ => none
    inPath := fun _ => false
    exec := fun _ _ => ("", "") }

/-- A file system with no entries at all. -/
def noFs : String → Option FType := fun _ => none

/-- A file system whose only entry is a regular file at `/tmp/foo`. -/
def fsTmpFoo : String → Option FType :=
  fun s => if s = "/tmp/foo" then some FType.file else none

/-- Reachability invariant of the tokenizer flags: while inside single
quotes there is never a pending escape and double-quote mode is off. -/
def TInv (st : PState) : Prop :=
  st.inSingle = true → st.escaped = false ∧ st.inDouble = false

/-! ## Theorems -/

/-- C1: the claim says that for an external command with no redirection
directive the dispatcher writes the output text to standard-out and the
non-empty error text to standard-error.  The code does write the output,
but the standard-error write at main.go line 69 is guarded by
`redirectIndex >= 0`, so with no directive the error text is dropped: for
the external command `prog` whose execution produces output `out` and
error text `boom\n`, the iteration performs only the standard-out write. -/
theorem c1_external_error_dropped :
    executeProgram wExternal "prog" [] = ("out", "boom\n")
    ∧ runIteration wExternal "prog" [] = [Eff.writeStdout "out"]
    ∧ Eff.writeStderr "boom\n" ∉ runIteration wExternal "prog" [] := by
  refine ⟨by decide, by decide, by decide⟩

/-- C3: the claim says tab on a buffer with no non-whitespace word never
fails (no candidates, bell, buffer unchanged).  The Completion Provider
does return no candidates for the empty prefix, but `readInput` indexes
`str[len(str)-1]` on the empty `strings.Fields` result before ever calling
it, which panics: the tab handler has no defined result (`none`) on the
empty buffer and on an all-spaces buffer. -/
theorem c3_tab_empty_panics :
    getAutoCompletions ⟨defaultBuiltins, []⟩ "" = []
    ∧ fields "" = []
    ∧ fields "   " = []
    ∧ tabKey ⟨defaultBuiltins, []⟩ "" 0 = none
    ∧ tabKey ⟨defaultBuiltins, []⟩ "   " 0 = none := by
  refine ⟨by decide, by decide, by decide, by decide, by decide⟩

/-- C4 counterexample: the claim says a backslash inside double quotes is
consumed before `$`, so that the line `"\$x"` tokenizes to `$x`.  On the
code, `$` falls into the `default` case which re-emits the consumed
backslash, and the token is `\$x`. -/
theorem c4_counterexample :
    parseUserInput (String.mk ['"', '\\', '$', 'x', '"']) = [String.mk ['\\', '$', 'x']]
    ∧ String.mk ['\\', '$', 'x'] ≠ String.mk ['$', 'x'] := by
  refine ⟨by decide, by decide⟩

/-- C4 amended: inside double quotes a backslash is consumed exactly when
it precedes `"` or `\`; before any other character (including `$`) the
backslash is kept literally in the token.  In particular the line `"\$x"`
produces the single token `\$x`. -/
theorem c4_amended_double_quote_backslash :
    (∀ (st : PState) (c : Char), st.inDouble = true → st.inSingle = false →
      st.escaped = false →
      runChars st ['\\', c] =
        { st with current := st.current ++ (if c = '"' ∨ c = '\\' then [c] else ['\\', c]) })
    ∧ parseUserInput (String.mk ['"', '\\', '$', 'x', '"']) = [String.mk ['\\', '$', 'x']] := by
  constructor
  · intro st c hd hs he
    obtain ⟨is, id, es, cur, ar⟩ := st
    simp only at hd hs he
    subst hd; subst hs; subst he
    show step (step _ '\\') c = _
    have h1 : step (PState.mk false true false cur ar) '\\' =
        PState.mk false true true cur ar := by
      simp [step]
    rw [h1]
    by_cases hc1 : c = '\\'
    · subst hc1; simp [step]
    · by_cases hc2 : c = '"'
      · subst hc2; simp [step]
      · by_cases hc3 : c = '\''
        · subst hc3; simp [step]
        · by_cases hc4 : c = ' '
          · subst hc4; simp [step]
          · simp [step, hc1, hc2, hc3, hc4]
  · decide

/-- C4 witness: the general statement at a concrete state and the character
`$`: the backslash is kept. -/
theorem c4_witness :
    runChars (PState.mk false true false [] []) ['\\', '$'] =
      PState.mk false true false ['\\', '$'] [] := by
  have h := c4_amended_double_quote_backslash.1 (PState.mk false true false [] [])
    '$' rfl rfl rfl
  simpa using h

/-- C5 counterexample: the claim says the error text names the path "as the
user gave it".  For `cd foo` with `PWD=/tmp` and `foo` nonexistent, the
code reports the resolved path `/tmp/foo`, not the argument `foo`. -/
theorem c5_counterexample :
    cdCmd noFs ⟨"/tmp", "/home/u"⟩ ["foo"] =
      (⟨"/tmp", "/home/u"⟩, "", some "cd: /tmp/foo: No such file or directory")
    ∧ ("cd: /tmp/foo: No such file or directory" : String) ≠
        "cd: foo: No such file or directory" := by
  refine ⟨by decide, by decide⟩

/-- C5 amended: for every `cd` call whose resolved target (absolute as
given, or after `~`/`PWD` resolution) does not exist, the environment is
left unchanged and the error text is exactly
`cd: <resolved-path>: No such file or directory`. -/
theorem c5_amended_cd_error :
    ∀ (fs : String → Option FType) (env : ShellEnv) (p : String),
      fs (cdResolve env.pwd env.home p) = none →
      cdCmd fs env [p] =
        (env, "", some ("cd: " ++ cdResolve env.pwd env.home p ++
          ": No such file or directory")) := by
  intro fs env p h
  simp [cdCmd, h]

/-- C5 witness: the amended statement evaluated at `cd foo` under
`PWD=/tmp`, `HOME=/home/u` and an empty file system. -/
theorem c5_witness :
    noFs (cdResolve "/tmp" "/home/u" "foo") = none
    ∧ cdCmd noFs ⟨"/tmp", "/home/u"⟩ ["foo"] =
        (⟨"/tmp", "/home/u"⟩, "", some "cd: /tmp/foo: No such file or directory") := by
  refine ⟨rfl, ?_⟩
  have h := c5_amended_cd_error noFs ⟨"/tmp", "/home/u"⟩ "foo" rfl
  exact h.trans (by decide)

/-- C8: a command that is neither a builtin nor on the search path makes
`executeProgram` synthesize `<command>: command not found\n` as the output
stream with an empty error stream, and the dispatcher routes it exactly
like ordinary output: to standard-out when no directive is present, and to
the target file under a `>` directive (nothing reaches standard-error). -/
theorem c8_command_not_found :
    ∀ (w : World) (command : String) (args0 : List String),
      w.inPath command = false →
      executeProgram w command args0 = (command ++ ": command not found\n", "")
      ∧ (w.builtins command = none →
          args0.findIdx? (fun n => isRedirectOperator n) = none →
          runIteration w command args0 =
            [Eff.writeStdout (command ++ ": command not found\n")])
      ∧ (w.builtins command = none → ∀ f : String,
          runIteration w command [">", f] =
            [Eff.fileTruncate f (command ++ ": command not found\n")]) := by
  intro w command args0 hpath
  refine ⟨by simp [executeProgram, hpath], ?_, ?_⟩
  · intro hb hidx
    simp [runIteration, hb, hidx, executeProgram, hpath]
  · intro hb f
    have hidx : (([">", f] : List String)).findIdx? (fun n => isRedirectOperator n) =
        some 0 := by
      simp [List.findIdx?_cons, isRedirectOperator]
    simp [runIteration, hb, hidx, executeProgram, hpath, redirect]

/-- C8 witness: the statement evaluated in a world with no builtins and an
empty search path, at the command `foo`. -/
theorem c8_witness :
    executeProgram wEmpty "foo" [] = ("foo: command not found\n", "")
    ∧ runIteration wEmpty "foo" [] = [Eff.writeStdout "foo: command not found\n"]
    ∧ runIteration wEmpty "foo" [">", "f"] =
        [Eff.fileTruncate "f" "foo: command not found\n"] := by
  have h := c8_command_not_found wEmpty "foo" [] rfl
  exact ⟨h.1, h.2.1 rfl (by decide), h.2.2 rfl "f"⟩

/-- C9 counterexample: the claim says a builtin error is written to exactly
one destination, never both.  For the builtin `b` failing with error `err`
under the directive `2> f`, the code writes `err\n` to the terminal
standard-error (main.go line 58 is unconditional) and also writes `err` to
the target file `f`. -/
theorem c9_counterexample :
    runIteration wBuiltinErr "b" ["2>", "f"] =
      [Eff.writeStderr "err\n", Eff.fileTruncate "f" "err"]
    ∧ Eff.writeStderr "err\n" ∈ runIteration wBuiltinErr "b" ["2>", "f"]
    ∧ Eff.fileTruncate "f" "err" ∈ runIteration wBuiltinErr "b" ["2>", "f"] := by
  refine ⟨by decide, by decide, by decide⟩

/-- C9 amended: when a builtin invocation returns an error, the error
message plus newline is always written to the terminal standard-error,
regardless of any redirection directive (the stderr write heads the
effect list whatever the directive tokens are — `>`, `1>`, `>>`, `1>>`,
`2>`, `2>>` or a malformed tail); with no directive the output follows on
standard-out, and when a `2>` (resp. `2>>`) directive is present the error
text is additionally written truncating (resp. appending) to the target
file, so both destinations receive it. -/
theorem c9_amended_builtin_error_routing :
    ∀ (w : World) (command : String) (args0 : List String)
      (cmdFn : List String → String × Option String) (out e : String),
      w.builtins command = some cmdFn →
      ((args0.findIdx? (fun n => isRedirectOperator n) = none →
         cmdFn args0 = (out, some e) →
         runIteration w command args0 =
           [Eff.writeStderr (e ++ "\n"), Eff.writeStdout out])
      ∧ (∀ i : Nat,
          args0.findIdx? (fun n => isRedirectOperator n) = some i →
          cmdFn (args0.take i) = (out, some e) →
          runIteration w command args0 =
            Eff.writeStderr (e ++ "\n") :: redirect out e (args0.drop i)
          ∧ Eff.writeStderr (e ++ "\n") ∈ runIteration w command args0
          ∧ (∀ (tgt : String) (rest : List String),
              args0.drop i = "2>" :: tgt :: rest →
              Eff.fileTruncate tgt e ∈ runIteration w command args0)
          ∧ (∀ (tgt : String) (rest : List String),
              args0.drop i = "2>>" :: tgt :: rest →
              Eff.fileAppend tgt e ∈ runIteration w command args0))) := by
  intro w command args0 cmdFn out e hb
  constructor
  · intro hidx hfn
    simp [runIteration, hb, hidx, hfn]
  · intro i hidx hfn
    have hrun : runIteration w command args0 =
        Eff.writeStderr (e ++ "\n") :: redirect out e (args0.drop i) := by
      simp [runIteration, hb, hidx, hfn]
    refine ⟨hrun, by rw [hrun]; simp, ?_, ?_⟩
    · intro tgt rest hdrop
      rw [hrun, hdrop]
      have hred : redirect out e ("2>" :: tgt :: rest) =
          (if out = "" then [] else [Eff.writeStdout out]) ++
            [Eff.fileTruncate tgt e] := by
        simp [redirect]
      rw [hred]
      simp
    · intro tgt rest hdrop
      rw [hrun, hdrop]
      have hred : redirect out e ("2>>" :: tgt :: rest) =
          (if out = "" then [] else [Eff.writeStdout out]) ++
            [Eff.fileAppend tgt e] := by
        simp [redirect]
      rw [hred]
      simp

/-- C9 witness: the amended statement evaluated at the builtin `b` failing
with `err`, under the directives `2> f` (stderr and truncating file write),
`2>> f` (stderr and appending file write), and `> f` (stderr still
written). -/
theorem c9_witness :
    (Eff.writeStderr "err\n" ∈ runIteration wBuiltinErr "b" ["2>", "f"]
     ∧ Eff.fileTruncate "f" "err" ∈ runIteration wBuiltinErr "b" ["2>", "f"])
    ∧ (Eff.writeStderr "err\n" ∈ runIteration wBuiltinErr "b" ["2>>", "f"]
     ∧ Eff.fileAppend "f" "err" ∈ runIteration wBuiltinErr "b" ["2>>", "f"])
    ∧ Eff.writeStderr "err\n" ∈ runIteration wBuiltinErr "b" [">", "f"] := by
  have h1 := (c9_amended_builtin_error_routing wBuiltinErr "b" ["2>", "f"]
    (fun _ => ("", some "err")) "" "err" rfl).2 0 (by decide) rfl
  have h2 := (c9_amended_builtin_error_routing wBuiltinErr "b" ["2>>", "f"]
    (fun _ => ("", some "err")) "" "err" rfl).2 0 (by decide) rfl
  have h3 := (c9_amended_builtin_error_routing wBuiltinErr "b" [">", "f"]
    (fun _ => ("", some "err")) "" "err" rfl).2 0 (by decide) rfl
  exact ⟨⟨h1.2.1, h1.2.2.1 "f" [] rfl⟩, ⟨h2.2.1, h2.2.2.2 "f" [] rfl⟩, h3.2.1⟩

/-- C10: `cdCmd` checks only existence, never directory-ness: for a single
path argument it errors exactly when the resolved target does not exist,
and a resolved target that is an existing regular (non-directory) file
makes it succeed and set `PWD` to that file's path. -/
theorem c10_cd_existence_only :
    ∀ (fs : String → Option FType) (env : ShellEnv) (p : String),
      ((cdCmd fs env [p]).2.2 ≠ none ↔ fs (cdResolve env.pwd env.home p) = none)
      ∧ (fs (cdResolve env.pwd env.home p) = some FType.file →
          cdCmd fs env [p] =
            ({ pwd := cdResolve env.pwd env.home p, home := env.home }, "", none)) := by
  intro fs env p
  constructor
  · cases hf : fs (cdResolve env.pwd env.home p) <;> simp [cdCmd, hf]
  · intro h
    simp [cdCmd, h]

/-- C10 witness: `cd foo` under `PWD=/tmp` with a regular file at
`/tmp/foo` succeeds and sets `PWD` to `/tmp/foo`. -/
theorem c10_witness :
    fsTmpFoo (cdResolve "/tmp" "/h" "foo") = some FType.file
    ∧ cdCmd fsTmpFoo ⟨"/tmp", "/h"⟩ ["foo"] = (⟨"/tmp/foo", "/h"⟩, "", none) := by
  refine ⟨by decide, ?_⟩
  have h := (c10_cd_existence_only fsTmpFoo ⟨"/tmp", "/h"⟩ "foo").2 (by decide)
  exact h.trans (by decide)

lemma cp2_of_prefix : ∀ (as bs : List Char), as <+: bs → cp2 as bs = as := by
  intro as
  induction as with
  | nil => intro bs _; cases bs <;> rfl
  | cons a as ih =>
    intro bs h
    obtain ⟨t, ht⟩ := h
    subst ht
    simp [cp2, ih (as ++ t) ⟨t, rfl⟩]

lemma foldl_cp2_const : ∀ (l : List String) (a : List Char),
    (∀ x ∈ l, a.isPrefixOf x.data) →
    l.foldl (fun acc x => cp2 acc x.data) a = a := by
  intro l
  induction l with
  | nil => intro a _; rfl
  | cons x l ih =>
    intro a h
    have hx : cp2 a x.data = a :=
      cp2_of_prefix a x.data (List.isPrefixOf_iff_prefix.mp (h x (by simp)))
    simp only [List.foldl_cons, hx]
    exact ih a (fun y hy => h y (by simp [hy]))

/-- When `getLongestPrefix` returns a non-empty string, that string is the
true longest common prefix of the candidate set. -/
lemma getLongestPrefix_eq_lcp (ms : List String) (h : getLongestPrefix ms ≠ "") :
    getLongestPrefix ms = longestCommonPrefixSpec ms := by
  match ms with
  | [] => exact absurd rfl h
  | m :: rest =>
    by_cases hall : rest.all (fun x => goHasPrefix x m)
    · have hj : getLongestPrefix (m :: rest) = m := by simp [getLongestPrefix, hall]
      rw [hj]
      have : rest.foldl (fun acc x => cp2 acc x.data) m.data = m.data := by
        refine foldl_cp2_const rest m.data (fun x hx => ?_)
        have := (List.all_eq_true.mp hall) x hx
        simpa [goHasPrefix] using this
      simp [longestCommonPrefixSpec, this]
    · exact absurd (by simp [getLongestPrefix, hall]) h

/-- C2 counterexample: for the buffer `run ec` with candidate set
`\x7bech, echo\x7d`, the longest common prefix `ech` is strictly longer
than the current prefix `ec`, so the claim requires the buffer to become
`run ech`; the code instead replaces the entire buffer with `ech`,
discarding `run `. -/
theorem c2_counterexample :
    getAutoCompletions ⟨["ech", "echo"], []⟩ "ec" = ["ech", "echo"]
    ∧ longestCommonPrefixSpec ["ech", "echo"] = "ech"
    ∧ ("ec" : String).length < ("ech" : String).length
    ∧ tabKey ⟨["ech", "echo"], []⟩ "run ec" 0 = some ("ech", 1, [])
    ∧ ("ech" : String) ≠ "run ech" := by
  refine ⟨by decide, by decide, by decide, by decide, by decide⟩

/-- C2 amended: with more than one candidate, the completion step checks
only whether the first (lexicographically least) candidate is a prefix of
every candidate; if so — that string then being the longest common prefix
of the set — it replaces the entire buffer with it (no trailing space),
regardless of the current prefix and of any earlier words in the buffer;
otherwise the bell/list-candidates policy applies even when a common
prefix strictly longer than the current one exists. -/
theorem c2_amended_tab_multimatch :
    ∀ (env : CompletionEnv) (buffer : String) (tabCount : Nat) (sub : String),
      (fields buffer).getLast? = some sub →
      1 < (getAutoCompletions env sub).length →
      ((getLongestPrefix (getAutoCompletions env sub) ≠ "" →
         tabKey env buffer tabCount =
           some (getLongestPrefix (getAutoCompletions env sub), tabCount + 1, [])
         ∧ getLongestPrefix (getAutoCompletions env sub) =
             longestCommonPrefixSpec (getAutoCompletions env sub))
      ∧ (getLongestPrefix (getAutoCompletions env sub) = "" → tabCount + 1 < 2 →
         tabKey env buffer tabCount = some (buffer, tabCount + 1, ["\x07"]))) := by
  intro env buffer tabCount sub hlast hlen
  have h0 : ¬ (getAutoCompletions env sub).length = 0 := by omega
  have h1 : ¬ (getAutoCompletions env sub).length = 1 := by omega
  constructor
  · intro hne
    refine ⟨?_, getLongestPrefix_eq_lcp _ hne⟩
    simp [tabKey, hlast, h0, h1, hne]
  · intro heq htc
    simp [tabKey, hlast, h0, h1, heq, htc]

/-- C2 witness: the amended statement evaluated at the buffer `run ec`
with builtins `ech` and `echo`. -/
theorem c2_witness :
    tabKey ⟨["ech", "echo"], []⟩ "run ec" 0 = some ("ech", 1, [])
    ∧ getLongestPrefix ["ech", "echo"] = longestCommonPrefixSpec ["ech", "echo"] := by
  have h := (c2_amended_tab_multimatch ⟨["ech", "echo"], []⟩ "run ec" 0 "ec"
    (by decide) (by decide)).1 (by decide)
  refine ⟨h.1.trans (by decide), ?_⟩
  have h2 := h.2
  rw [show getAutoCompletions ⟨["ech", "echo"], []⟩ "ec" = ["ech", "echo"] from by decide]
    at h2
  exact h2

lemma runChars_cons (st : PState) (c : Char) (cs : List Char) :
    runChars st (c :: cs) = runChars (step st c) cs := rfl

lemma isSpace_false {c : Char} (hc : ctrl c = false) (hs : c ≠ ' ') :
    isSpace c = false := by
  simp only [isSpace, Bool.or_eq_false_iff, beq_eq_false_iff_ne, ne_eq]
  refine ⟨⟨⟨⟨⟨hs, ?_⟩, ?_⟩, ?_⟩, ?_⟩, ?_⟩ <;> (rintro rfl; exact absurd hc (by decide))

/-- Over characters that are neither quotes, backslashes nor control
characters, the tokenizer loop behaves as plain space-splitting of the
remaining input, for every accumulator and already-emitted token list. -/
lemma runChars_plain : ∀ (cs : List Char),
    (∀ c ∈ cs, c ≠ '"' ∧ c ≠ '\'' ∧ c ≠ '\\' ∧ ctrl c = false) →
    ∀ (acc : List Char) (args : List String),
      finish (runChars ⟨false, false, false, acc, args⟩ cs) = args ++ fieldsAux cs acc := by
  intro cs
  induction cs with
  | nil =>
    intro _ acc args
    by_cases h : acc.isEmpty <;> simp [runChars, finish, fieldsAux, h]
  | cons c cs ih =>
    intro hall acc args
    obtain ⟨hq, hsq, hbs, hctrl⟩ := hall c (by simp)
    have hrest : ∀ x ∈ cs, x ≠ '"' ∧ x ≠ '\'' ∧ x ≠ '\\' ∧ ctrl x = false :=
      fun x hx => hall x (by simp [hx])
    by_cases hsp : c = ' '
    · subst hsp
      by_cases hacc : acc.isEmpty
      · have hanil : acc = [] := List.isEmpty_iff.mp hacc
        subst hanil
        have hstep : step ⟨false, false, false, [], args⟩ ' ' =
            ⟨false, false, false, [], args⟩ := by simp [step]
        rw [runChars_cons, hstep, ih hrest [] args]
        simp [fieldsAux, isSpace]
      · have hstep : step ⟨false, false, false, acc, args⟩ ' ' =
            ⟨false, false, false, [], args ++ [String.mk acc]⟩ := by
          simp [step, hacc]
        rw [runChars_cons, hstep, ih hrest [] (args ++ [String.mk acc])]
        have hfa : fieldsAux (' ' :: cs) acc = String.mk acc :: fieldsAux cs [] := by
          simp [fieldsAux, isSpace, hacc]
        rw [hfa]
        simp
    · have hnsp : isSpace c = false := isSpace_false hctrl hsp
      have hstep : step ⟨false, false, false, acc, args⟩ c =
          ⟨false, false, false, acc ++ [c], args⟩ := by
        simp [step, hq, hsq, hbs, hsp]
      rw [runChars_cons, hstep, ih hrest (acc ++ [c]) args]
      simp [fieldsAux, hnsp]

lemma mk_ne_empty {l : List Char} (h : l ≠ []) : String.mk l ≠ "" := by
  intro he
  apply h
  have hd : (String.mk l).data = ("" : String).data := by rw [he]
  simpa using hd

/-- One step of the tokenizer either leaves the token list unchanged or
flushes the (non-empty) accumulator onto it. -/
lemma step_args (st : PState) (c : Char) :
    (step st c).args = st.args ∨
    (st.current ≠ [] ∧ (step st c).args = st.args ++ [String.mk st.current]) := by
  unfold step
  split_ifs <;> simp_all

lemma runChars_no_empty : ∀ (cs : List Char) (st : PState), "" ∉ st.args →
    "" ∉ (runChars st cs).args := by
  intro cs
  induction cs with
  | nil => intro st h; exact h
  | cons c cs ih =>
    intro st h
    rw [runChars_cons]
    refine ih (step st c) ?_
    rcases step_args st c with heq | ⟨hne, heq⟩ <;> rw [heq]
    · exact h
    · intro hmem
      rcases List.mem_append.mp hmem with hm | hm
      · exact h hm
      · exact mk_ne_empty hne (List.mem_singleton.mp hm).symm

lemma finish_no_empty (st : PState) (h : "" ∉ st.args) : "" ∉ finish st := by
  unfold finish
  split_ifs with hie
  · exact h
  · intro hmem
    rcases List.mem_append.mp hmem with hm | hm
    · exact h hm
    · have hne : st.current ≠ [] := by simpa [List.isEmpty_iff] using hie
      exact mk_ne_empty hne (List.mem_singleton.mp hm).symm

/-- C6: on a line whose characters include no quote, no backslash and no
control (escape) character, `parseUserInput` equals the whitespace-split of
the line; and on every line whatsoever, the tokenizer never emits an empty
token. -/
theorem c6_no_quote_whitespace_split :
    (∀ s : String,
      (∀ c ∈ s.data, c ≠ '"' ∧ c ≠ '\'' ∧ c ≠ '\\' ∧ ctrl c = false) →
      parseUserInput s = fields s)
    ∧ (∀ s : String, "" ∉ parseUserInput s) := by
  constructor
  · intro s h
    have hr := runChars_plain s.data h [] []
    simpa [parseUserInput, fields, initState] using hr
  · intro s
    exact finish_no_empty _ (runChars_no_empty s.data initState (by simp [initState]))

/-- C6 witness: the statement evaluated on the plain line `ab  cd`. -/
theorem c6_witness :
    parseUserInput "ab  cd" = fields "ab  cd" ∧ "" ∉ parseUserInput "ab  cd" :=
  ⟨c6_no_quote_whitespace_split.1 "ab  cd" (by decide),
   c6_no_quote_whitespace_split.2 "ab  cd"⟩

lemma step_tinv (st : PState) (c : Char) (h : TInv st) : TInv (step st c) := by
  unfold TInv at *
  unfold step
  split_ifs <;> simp_all

lemma runChars_tinv : ∀ (cs : List Char) (st : PState), TInv st →
    TInv (runChars st cs) := by
  intro cs
  induction cs with
  | nil => intro st h; exact h
  | cons c cs ih =>
    intro st h
    rw [runChars_cons]
    exact ih _ (step_tinv st c h)

lemma stateOf_tinv (s : String) : TInv (stateOf s) :=
  runChars_tinv s.data initState (fun h => by simp [initState] at h)

lemma parse_snoc (s : String) (c : Char) :
    parseUserInput (s ++ String.mk [c]) = finish (step (stateOf s) c) := by
  unfold parseUserInput stateOf runChars
  rw [show (s ++ String.mk [c]).data = s.data ++ [c] from rfl, List.foldl_append]
  rfl

/-- C7: `parseUserInput` treats an unterminated quote at end-of-input as
implicitly closed: a line ending inside single quotes tokenizes exactly as
the line with a closing single quote appended, a line ending inside double
quotes (with no pending escape) as the line with a closing double quote
appended — the accumulator is flushed as the final token either way — and
in particular the line consisting of a single quote followed by `abc`
yields the one token `abc`. -/
theorem c7_unterminated_quote :
    (∀ s : String, (stateOf s).inSingle = true →
        parseUserInput s = parseUserInput (s ++ String.mk ['\'']))
    ∧ (∀ s : String, (stateOf s).inDouble = true → (stateOf s).escaped = false →
        parseUserInput s = parseUserInput (s ++ String.mk ['"']))
    ∧ parseUserInput (String.mk ['\'', 'a', 'b', 'c']) = ["abc"] := by
  refine ⟨?_, ?_, by decide⟩
  · intro s h
    obtain ⟨hesc, hdq⟩ := stateOf_tinv s h
    rw [parse_snoc]
    have hstep : step (stateOf s) '\'' =
        { stateOf s with inSingle := false, escaped := false } := by
      simp [step, hesc, hdq, h]
    rw [hstep]
    simp [parseUserInput, stateOf, finish]
  · intro s hdq hesc
    have hsq : (stateOf s).inSingle = false := by
      cases hx : (stateOf s).inSingle
      · rfl
      · have hd := (stateOf_tinv s hx).2
        rw [hdq] at hd
        exact absurd hd (by decide)
    rw [parse_snoc]
    have hstep : step (stateOf s) '"' =
        { stateOf s with inDouble := false, escaped := false } := by
      simp [step, hesc, hsq, hdq]
    rw [hstep]
    simp [parseUserInput, stateOf, finish]

/-- C7 witness: the line consisting of a single quote followed by `abc`
ends inside single quotes, and tokenizes as if the quote were closed. -/
theorem c7_witness :
    (stateOf (String.mk ['\'', 'a', 'b', 'c'])).inSingle = true
    ∧ parseUserInput (String.mk ['\'', 'a', 'b', 'c']) =
        parseUserInput (String.mk ['\'', 'a', 'b', 'c'] ++ String.mk ['\'']) :=
  ⟨by decide, c7_unterminated_quote.1 (String.mk ['\'', 'a', 'b', 'c']) (by decide)⟩

end ShellGo
